import Mathlib

/-!
Verification of the commit-message correction pipeline (`githooks/cli/commitmint.py`),
the hook dispatchers (`install.py` generated dispatcher and `pre-commit/dispatcher.py`),
the push retry loop (`githooks/core/github_utils.py`) and the hook installer
(`install.py`), via a shallow embedding over `List Char`.

Python strings are modelled as `List Char` (ASCII inputs).  Each regular expression
used by the code is embedded as a deterministic parser that follows Python's
backtracking semantics on the exact pattern in the source:
`.` never matches a newline, `$` matches at the end of the string or just before a
final newline, `\s*` is greedy with backtracking, and `\(.*?\)` is lazy, growing the
parenthesised content one closing-paren candidate at a time.
-/

namespace Githooks

abbrev Str := List Char

/-! ### Character classes and basic string operations -/

/-- Python regex `\w` on ASCII input: letters, digits, underscore. -/
def isWordChar (c : Char) : Bool := c.isAlpha || c.isDigit || c = '_'

/-- Python regex `\s` on ASCII input. -/
def isSpaceChar (c : Char) : Bool :=
  c = ' ' || c = '\t' || c = '\n' || c = '\r' || c = '\x0B' || c = '\x0C'

/-- Python `hay.startswith(needle)`, as `startsList needle hay`. -/
def startsList : Str → Str → Bool
  | [], _ => true
  | _ :: _, [] => false
  | a :: as, b :: bs => a = b && startsList as bs

/-- Python `needle in hay` (substring containment), as `hasSub hay needle`. -/
def hasSub : Str → Str → Bool
  | [], needle => startsList needle []
  | c :: t, needle => startsList needle (c :: t) || hasSub t needle

/-- Literal stripping: `dropLit lit s = some rest` iff `s = lit ++ rest`. -/
def dropLit : Str → Str → Option Str
  | [], s => some s
  | _ :: _, [] => none
  | a :: as, b :: bs => if a = b then dropLit as bs else none

/-- Python `str.upper()` on ASCII input. -/
def toUpperL (s : Str) : Str := s.map Char.toUpper

/-- Python `str.lower()` on ASCII input. -/
def toLowerL (s : Str) : Str := s.map Char.toLower

/-- Python `str.strip()` on ASCII input. -/
def stripL (s : Str) : Str :=
  ((s.dropWhile isSpaceChar).reverse.dropWhile isSpaceChar).reverse

/-- Python `s.endswith(suf)`, as `endsList s suf`. -/
def endsList (s suf : Str) : Bool := (dropLit suf.reverse s.reverse).isSome

/-! ### `(.*)$` and `\s*(.*)$` resolution (Python semantics, no DOTALL, no MULTILINE) -/

/-- Match `(.*)$` against the whole of `s`: succeeds iff `s` has no newline, or
exactly one newline as its final character; the group excludes that newline. -/
def dotStarEnd (s : Str) : Option Str :=
  let t := s.dropWhile (fun c => c ≠ '\n')
  if t = [] || t = ['\n'] then some (s.takeWhile (fun c => c ≠ '\n')) else none

/-- Backtracking loop for `\s*(.*)$`: `wsRev` holds the whitespace consumed so far
(reversed); try the current split, then give characters back one at a time. -/
def wsDotStar : Str → Str → Option (Str × Str)
  | [], tail => (dotStarEnd tail).map fun rest => ([], rest)
  | c :: wsRev', tail =>
    match dotStarEnd tail with
    | some rest => some ((c :: wsRev').reverse, rest)
    | none => wsDotStar wsRev' (c :: tail)

/-- Match `\s*(.*)$` against the whole of `s`, returning the whitespace consumed
by the greedy `\s*` (after backtracking) and the `(.*)` group. -/
def wsSplit (s : Str) : Option (Str × Str) :=
  wsDotStar ((s.takeWhile isSpaceChar).reverse) (s.dropWhile isSpaceChar)

/-! ### `has_conventional_type` (commitmint.py)

Regex: `^(feat|fix|docs|style|refactor|test|chore|ci)(?:\(.*?\))?(!)?:` -/

/-- The conventional-commit types, in the order they appear in the alternation. -/
def convTypes : List Str :=
  ["feat".data, "fix".data, "docs".data, "style".data, "refactor".data,
   "test".data, "chore".data, "ci".data]

/-- Match `(!)?:` at the start of `s` (Boolean). -/
def colonAfterBang : Str → Bool
  | [] => false
  | c :: rest =>
    c = ':' || (c = '!' &&
      (match rest with
       | c2 :: _ => c2 = ':'
       | [] => false))

/-- Inside `\(.*?\)(!)?:`: scan the content after the opening paren.  At every
closing paren the engine first tries to stop the lazy `.*?` there; `.` does not
match a newline. -/
def parenThenBC : Str → Bool
  | [] => false
  | c :: rest =>
    if c = ')' then colonAfterBang rest || parenThenBC rest
    else if c = '\n' then false
    else parenThenBC rest

/-- Function `has_conventional_type` from commitmint.py. -/
def has_conventional_type (s : Str) : Bool :=
  convTypes.any fun ty =>
    match dropLit ty s with
    | some rest =>
      (match rest with
       | c :: inner =>
         if c = '(' then parenThenBC inner else colonAfterBang (c :: inner)
       | [] => false)
    | none => false

/-! ### `suggest_type_header` (commitmint.py) -/

/-- Function `suggest_type_header` from commitmint.py. -/
def suggest_type_header (s : Str) : Str :=
  if has_conventional_type s then s
  else
    (if hasSub (toLowerL s) ("doc".data) || hasSub (toLowerL s) ("readme".data) then
       "docs".data
     else "feat".data) ++ ':' :: ' ' :: s

/-! ### `fix_duplicate_scope` (commitmint.py)

First regex: `^(\w+)\(([^)]+)\):\s*(.*)$`; fallback substitution:
`re.sub(r"^(\w+\(.*?\):)\s*\1", r"\1", msg)`. -/

/-- Match `([^)]+)\)` at the start of `s`: the scope group (greedy, nonempty,
no closing paren inside — the class does match newlines) and the remainder. -/
def scanScope (s : Str) : Option (Str × Str) :=
  let content := s.takeWhile (fun c => c ≠ ')')
  match s.dropWhile (fun c => c ≠ ')') with
  | c :: rest =>
    if c = ')' then (if content = [] then none else some (content, rest)) else none
  | [] => none

/-- Backtracking loop for `\s*\1` in the fallback pattern: greedy whitespace,
then the literal group `g`; returns the remainder after the second copy of `g`. -/
def wsThenLit (g : Str) : Str → Str → Option Str
  | [], tail => dropLit g tail
  | c :: wsRev', tail =>
    match dropLit g tail with
    | some rest => some rest
    | none => wsThenLit g wsRev' (c :: tail)

/-- Scan for the fallback pattern `^(\w+\(.*?\):)\s*\1` after the opening paren:
`contentRev` is the lazy `.*?` content so far (reversed).  On success returns the
whole substituted string `\1 ++ tail`. -/
def fbScan (w : Str) : Str → Str → Option Str
  | _, [] => none
  | contentRev, c :: rest =>
    if c = ')' then
      (match rest with
       | r1 :: rest2 =>
         if r1 = ':' then
           let g := w ++ '(' :: (contentRev.reverse ++ [')', ':'])
           (match wsThenLit g ((rest2.takeWhile isSpaceChar).reverse)
                   (rest2.dropWhile isSpaceChar) with
            | some tail => some (g ++ tail)
            | none => fbScan w (c :: contentRev) rest)
         else fbScan w (c :: contentRev) rest
       | [] => fbScan w (c :: contentRev) rest)
    else if c = '\n' then none
    else fbScan w (c :: contentRev) rest

/-- The fallback `re.sub(r"^(\w+\(.*?\):)\s*\1", r"\1", msg)`. -/
def fallbackCollapse (s : Str) : Str :=
  if s.takeWhile isWordChar = [] then s
  else
    match s.dropWhile isWordChar with
    | c :: inner =>
      if c = '(' then
        (match fbScan (s.takeWhile isWordChar) [] inner with
         | some res => res
         | none => s)
      else s
    | [] => s

/-- Function `fix_duplicate_scope` from commitmint.py. -/
def fix_duplicate_scope (s : Str) : Str :=
  if s.takeWhile isWordChar = [] then fallbackCollapse s
  else
    match s.dropWhile isWordChar with
    | c :: inner =>
      if c = '(' then
        (match scanScope inner with
         | some (scope, after) =>
           (match after with
            | a :: rest2 =>
              if a = ':' then
                (match wsSplit rest2 with
                 | some (_, body) =>
                   s.takeWhile isWordChar ++ '(' :: (scope ++ [')', ':', ' '] ++
                     (match dropLit (scope ++ [':', ' ']) body with
                      | some b => b
                      | none => body))
                 | none => fallbackCollapse s)
              else fallbackCollapse s
            | [] => fallbackCollapse s)
         | none => fallbackCollapse s)
      else fallbackCollapse s
    | [] => fallbackCollapse s

/-! ### `ensure_ticket_in_header` (commitmint.py)

Header regex: `^(\w+(?:\(.*?\))?(!)?:\s*)(.*)$`. -/

/-- Match `(!)?:` at the start of `s`, returning the consumed characters and the
remainder; the greedy optional `!` is tried first. -/
def bangColonSplit : Str → Option (Str × Str)
  | [] => none
  | c :: rest =>
    if c = '!' then
      (match rest with
       | c2 :: rest2 => if c2 = ':' then some (['!', ':'], rest2) else none
       | [] => none)
    else if c = ':' then some ([':'], rest)
    else none

/-- After a candidate closing paren: match `(!)?:\s*(.*)$`, returning the
`(!)?:` characters, the whitespace consumed by `\s*`, and the `(.*)` group. -/
def hmAfterParen (s : Str) : Option (Str × Str × Str) :=
  match bangColonSplit s with
  | some (bc, rest2) =>
    (match wsSplit rest2 with
     | some (ws, rest) => some (bc, ws, rest)
     | none => none)
  | none => none

/-- Lazy scan for `\(.*?\)(!)?:\s*(.*)$` after the opening paren: at each closing
paren first try to stop the lazy `.*?`; on failure the content grows past it.
Returns `(content, bangColon, whitespace, rest)`. -/
def hmParenScan : Str → Str → Option (Str × Str × Str × Str)
  | _, [] => none
  | contentRev, c :: rest =>
    if c = ')' then
      (match hmAfterParen rest with
       | some (bc, ws, r) => some (contentRev.reverse, bc, ws, r)
       | none => hmParenScan (c :: contentRev) rest)
    else if c = '\n' then none
    else hmParenScan (c :: contentRev) rest

/-- The paren-group branch of the header regex. -/
def hmParen (w inner : Str) : Option (Str × Str) :=
  match hmParenScan [] inner with
  | some (content, bc, ws, rest) =>
    some (w ++ '(' :: (content ++ [')'] ++ bc ++ ws), rest)
  | none => none

/-- The branch of the header regex without a paren group. -/
def hmNoParen (w r : Str) : Option (Str × Str) :=
  match bangColonSplit r with
  | some (bc, rest2) =>
    (match wsSplit rest2 with
     | some (ws, rest) => some (w ++ bc ++ ws, rest)
     | none => none)
  | none => none

/-- Full match of `^(\w+(?:\(.*?\))?(!)?:\s*)(.*)$` against `s`, returning the
first group (the header, including the trailing whitespace) and the last
group (the rest of the line). -/
def headerMatch (s : Str) : Option (Str × Str) :=
  if s.takeWhile isWordChar = [] then none
  else
    match s.dropWhile isWordChar with
    | c :: inner =>
      if c = '(' then hmParen (s.takeWhile isWordChar) inner
      else hmNoParen (s.takeWhile isWordChar) (c :: inner)
    | [] => none

/-- Function `ensure_ticket_in_header` from commitmint.py. -/
def ensure_ticket_in_header (s jiraTicket : Str) : Str :=
  match headerMatch s with
  | some (pre, rest) =>
    if hasSub rest (toUpperL jiraTicket) then s
    else pre ++ toUpperL jiraTicket ++ ' ' :: rest
  | none =>
    if hasSub s (toUpperL jiraTicket) then s else toUpperL jiraTicket ++ ' ' :: s

/-! ### `add_footer_if_breaking_change` (commitmint.py)

Breaking-header regex: `^(\w+)(?:\(.*?\))?!:(?:\s|$)`. -/

/-- Match `!:(?:\s|$)` at the start of `s`. -/
def bangColonWs : Str → Bool
  | c1 :: c2 :: rest =>
    c1 = '!' && c2 = ':' &&
      (match rest with
       | [] => true
       | c :: _ => isSpaceChar c)
  | _ => false

/-- Lazy scan for `\(.*?\)!:(?:\s|$)` after the opening paren. -/
def bkParenScan : Str → Bool
  | [] => false
  | c :: rest =>
    if c = ')' then bangColonWs rest || bkParenScan rest
    else if c = '\n' then false
    else bkParenScan rest

/-- The breaking-header condition `re.match(r"^(\w+)(?:\(.*?\))?!:(?:\s|$)", msg)`. -/
def breakingHeader (s : Str) : Bool :=
  if s.takeWhile isWordChar = [] then false
  else
    match s.dropWhile isWordChar with
    | c :: inner =>
      if c = '(' then bkParenScan inner else bangColonWs (c :: inner)
    | [] => false

/-- The Smart Commit footer `f"\n\n{ticket} #comment Breaking change; review impacts #resolve"`. -/
def breakingFooter (ticket : Str) : Str :=
  '\n' :: '\n' :: (ticket ++ " #comment Breaking change; review impacts #resolve".data)

/-- Function `add_footer_if_breaking_change` from commitmint.py. -/
def add_footer_if_breaking_change (s jiraTicket : Str) : Str :=
  if breakingHeader s || hasSub s ("BREAKING CHANGE:".data) then
    if hasSub s (stripL (breakingFooter (toUpperL jiraTicket))) then s
    else s ++ breakingFooter (toUpperL jiraTicket)
  else s

/-! ### The correction pipeline (commitmint.py, `main`)

`main` runs, on the current message (with every interactive proposal accepted):
type suggestion when `has_conventional_type` is false, then `fix_duplicate_scope`,
then `ensure_ticket_in_header`, then `add_footer_if_breaking_change`
(unconditionally — the function itself detects breaking changes on its input). -/

/-- The full correction pipeline of `main` with every proposal accepted. -/
def correctionPipeline (m t : Str) : Str :=
  add_footer_if_breaking_change
    (ensure_ticket_in_header
      (fix_duplicate_scope (if has_conventional_type m then m else suggest_type_header m)) t) t

/-! ### `validate_commit_message` and `extract_ticket_from_header_or_body` (commitmint.py) -/

/-- Try to match `[A-Z]{2,}-\d+\b` at the start of `s` (the leading `\b` is
checked by the caller). -/
def ticketHere (s : Str) : Bool :=
  let us := s.takeWhile Char.isUpper
  if 2 ≤ us.length then
    match s.dropWhile Char.isUpper with
    | c :: rest =>
      if c = '-' then
        let ds := rest.takeWhile Char.isDigit
        if ds = [] then false
        else
          (match rest.dropWhile Char.isDigit with
           | [] => true
           | c2 :: _ => !isWordChar c2)
      else false
    | [] => false
  else false

/-- Search `re.search(r"\b([A-Z]{2,}-\d+)\b", msg)` as a Boolean: scan every position
whose predecessor is a non-word character (or the start of the string). -/
def ticketScan : Bool → Str → Bool
  | _, [] => false
  | prevW, c :: rest =>
    (!prevW && ticketHere (c :: rest)) || ticketScan (isWordChar c) rest

/-- Whether `extract_ticket_from_header_or_body` finds a ticket-shaped substring. -/
def hasTicketShaped (s : Str) : Bool := ticketScan false s

/-- Environment of `validate_commit_message`: whether `shutil.which("commitlint")`
resolves, and whether running it raises `OSError`/`SubprocessError`. -/
structure LintEnv where
  hasCommitlint : Bool
  execRaises : Bool
deriving DecidableEq

/-- The Python-side fallback errors of `validate_commit_message`. -/
def pythonSideErrors (s : Str) : List Str :=
  (if has_conventional_type s then []
   else ["Missing conventional type (feat, fix, docs, style, refactor, test, chore, ci)".data]) ++
  (if hasTicketShaped s then [] else ["Missing Jira ticket in header/body".data])

/-- Function `validate_commit_message` from commitmint.py: when a commitlint executable is
found and its invocation does not raise, return `(True, [])`; when it raises, the
execution error is recorded and the Python-side rules still run; when it is not
found, only the Python-side rules run. -/
def validate_commit_message (env : LintEnv) (s : Str) : Bool × List Str :=
  if env.hasCommitlint then
    if !env.execRaises then (true, [])
    else
      let errs := "Commitlint execution error".data :: pythonSideErrors s
      (errs.isEmpty, errs)
  else
    let errs := pythonSideErrors s
    (errs.isEmpty, errs)

/-! ### The dispatchers (`install.py` `_generate_dispatcher_hook`, `pre-commit/dispatcher.py`) -/

/-- A hook file in the hooks directory: its filename, and the exit code, stdout
and stderr its execution produces. -/
structure HookFile where
  name : Str
  exitCode : Int
  stdoutText : Str
  stderrText : Str
deriving DecidableEq

/-- What a dispatcher writes to its own streams. -/
inductive OutEvent where
  | info : Str → OutEvent
  | toOut : Str → OutEvent
  | toErr : Str → OutEvent
deriving DecidableEq

/-- Lexicographic order on filenames (Python string `<`). -/
def strLt : Str → Str → Bool
  | [], [] => false
  | [], _ :: _ => true
  | _ :: _, [] => false
  | a :: as, b :: bs => if a = b then strLt as bs else decide (a < b)

/-- Insertion into a sorted list of hook files. -/
def insertHook (x : HookFile) : List HookFile → List HookFile
  | [] => [x]
  | y :: ys => if strLt y.name x.name then y :: insertHook x ys else x :: y :: ys

/-- Python `sorted(...)` on hook files by filename. -/
def sortHooks : List HookFile → List HookFile
  | [] => []
  | x :: xs => insertHook x (sortHooks xs)

/-- The loop body of the dispatcher generated by `install.py`: run each hook in
order; output is replayed only when a hook exits non-zero, and the loop breaks
there.  Returns `(exit code, executed hook names, emitted events)`. -/
def genDispatchRun : List HookFile → Int × List Str × List OutEvent
  | [] => (0, [], [])
  | h :: t =>
    if h.exitCode ≠ 0 then
      (h.exitCode, [h.name], [OutEvent.toOut h.stdoutText, OutEvent.toErr h.stderrText])
    else
      let r := genDispatchRun t
      (r.1, h.name :: r.2.1, r.2.2)

/-- The dispatcher generated by `install.py`: `sorted(hooks_dir.glob('*.hook'))`,
skipping `dispatcher.hook` and names ending in `.disabled`. -/
def generatedDispatcher (dir : List HookFile) : Int × List Str × List OutEvent :=
  genDispatchRun ((sortHooks dir).filter fun h =>
    endsList h.name (".hook".data) && h.name ≠ "dispatcher.hook".data &&
      !endsList h.name (".disabled".data))

/-- The loop body of `pre-commit/dispatcher.py`: print a running line for every
hook, replay stripped stdout/stderr when non-empty, and exit at the first
non-zero exit code. -/
def pyDispatchRun : List HookFile → Int × List Str × List OutEvent
  | [] => (0, [], [])
  | h :: t =>
    let evs := OutEvent.info h.name ::
      ((if h.stdoutText ≠ [] then [OutEvent.toOut (stripL h.stdoutText)] else []) ++
       (if h.stderrText ≠ [] then [OutEvent.toErr (stripL h.stderrText)] else []))
    if h.exitCode ≠ 0 then (h.exitCode, [h.name], evs)
    else
      let r := pyDispatchRun t
      (r.1, h.name :: r.2.1, evs ++ r.2.2)

/-- Model of `pre-commit/dispatcher.py` `main`: `sorted(os.listdir(hook_dir))`, skipping
`dispatcher.py` and files not ending in `.hook`. -/
def precommitDispatcher (dir : List HookFile) : Int × List Str × List OutEvent :=
  pyDispatchRun ((sortHooks dir).filter fun h =>
    h.name ≠ "dispatcher.py".data && endsList h.name (".hook".data))

/-! ### `create_and_push_branch` push retry loop (github_utils.py) -/

/-- The observable outcome of one `git push` attempt. -/
structure PushAttempt where
  rc : Int
  stdoutText : Str
  stderrText : Str

/-- The transient error markers checked against lower-cased stderr. -/
def transientMarkers : List Str :=
  ["connection refused".data, "connection reset".data, "timeout".data,
   "network is unreachable".data, "temporary failure".data,
   "ssh_exchange_identification".data]

/-- The known success conditions checked against lower-cased stderr + stdout. -/
def successMarkers (a : PushAttempt) : Bool :=
  let comb := toLowerL a.stderrText ++ toLowerL a.stdoutText
  hasSub comb ("already exists".data) || hasSub comb ("up-to-date".data) ||
    (hasSub comb ("rejected".data) && hasSub comb ("fast-forward".data))

/-- Whether an attempt's stderr marks a transient, retryable error. -/
def isTransientAttempt (a : PushAttempt) : Bool :=
  transientMarkers.any fun m => hasSub (toLowerL a.stderrText) m

/-- The `for attempt in range(1, max_retries + 1)` loop of
`create_and_push_branch`: `fuel` counts the remaining iterations.  Returns
whether the loop returned `True`, and the list of back-off sleeps (in seconds)
performed, in order. -/
def pushRetryGo (push : Nat → PushAttempt) (maxRetries : Nat)
    (lsRemoteFindsBranch : Bool) : Nat → Nat → Bool × List Nat
  | 0, _ => (false, [])
  | fuel + 1, attempt =>
    let a := push attempt
    if a.rc = 0 then (true, [])
    else if successMarkers a then (true, [])
    else if isTransientAttempt a && attempt < maxRetries then
      let r := pushRetryGo push maxRetries lsRemoteFindsBranch fuel (attempt + 1)
      (r.1, 2 ^ (attempt - 1) :: r.2)
    else if attempt = maxRetries && lsRemoteFindsBranch then (true, [])
    else pushRetryGo push maxRetries lsRemoteFindsBranch fuel (attempt + 1)

/-- The push phase of `create_and_push_branch`: attempts are numbered from 1. -/
def pushPhase (push : Nat → PushAttempt) (maxRetries : Nat)
    (lsRemoteFindsBranch : Bool) : Bool × List Nat :=
  pushRetryGo push maxRetries lsRemoteFindsBranch maxRetries 1

/-- A push attempt that fails with a transient network error. -/
def transientFailure : PushAttempt := ⟨1, [], "connection refused".data⟩

/-! ### `install_local_hooks` / `install_global_hooks` (install.py) -/

/-- The `self.hook_types` list of `GitHooksInstaller`. -/
def hookTypes : List Str :=
  ["pre-commit".data, "prepare-commit-msg".data, "commit-msg".data,
   "post-commit".data, "pre-push".data, "post-checkout".data, "pre-rebase".data,
   "post-rewrite".data, "pre-auto-gc".data, "post-receive".data,
   "pre-receive".data, "post-update".data, "applypatch-msg".data]

/-- The shared installation loop of `install_local_hooks` and
`install_global_hooks`: for each hook type whose source directory exists, skip it
when the target hook file exists and `force` is not set, otherwise write the
generated dispatcher.  The hooks directory is a map from hook-type name to file
content; returns the updated directory and the installed count. -/
def installHooksLoop (srcDirExists : Str → Bool) (gen : Str → Str) (force : Bool) :
    List Str → (Str → Option Str) → Nat → (Str → Option Str) × Nat
  | [], fs, count => (fs, count)
  | t :: ts, fs, count =>
    if !srcDirExists t then installHooksLoop srcDirExists gen force ts fs count
    else if (fs t).isSome && !force then installHooksLoop srcDirExists gen force ts fs count
    else
      installHooksLoop srcDirExists gen force ts
        (fun x => if x = t then some (gen t) else fs x) (count + 1)

/-- Function `install_local_hooks`: the hook-installation loop over `.git/hooks`. -/
def install_local_hooks (srcDirExists : Str → Bool) (gen : Str → Str) (force : Bool)
    (fs : Str → Option Str) : (Str → Option Str) × Nat :=
  installHooksLoop srcDirExists gen force hookTypes fs 0

/-- Function `install_global_hooks`: the hook-installation loop over `~/.git-hooks`
(identical loop; the target directory and the `git config` call differ). -/
def install_global_hooks (srcDirExists : Str → Bool) (gen : Str → Str) (force : Bool)
    (fs : Str → Option Str) : (Str → Option Str) × Nat :=
  installHooksLoop srcDirExists gen force hookTypes fs 0

/-! ### Claim-side definition for C3

The claim describes the breaking-header test as `^type(\(scope\))?!:` with no
trailing `(?:\s|$)`. -/

/-- Match `!:` at the start of `s`. -/
def bangColonOnly : Str → Bool
  | c1 :: c2 :: _ => c1 = '!' && c2 = ':'
  | _ => false

/-- Lazy scan for `\(.*?\)!:` after the opening paren (no trailing requirement). -/
def parenBangColonOnly : Str → Bool
  | [] => false
  | c :: rest =>
    if c = ')' then bangColonOnly rest || parenBangColonOnly rest
    else if c = '\n' then false
    else parenBangColonOnly rest

/-- Modelled from the spec: the claim's breaking-header condition
`^type(\(scope\))?!:` — like `breakingHeader` but without the code's trailing
`(?:\s|$)` requirement. -/
def specLooseBreakingHeader (s : Str) : Bool :=
  if s.takeWhile isWordChar = [] then false
  else
    match s.dropWhile isWordChar with
    | c :: inner =>
      if c = '(' then parenBangColonOnly inner else bangColonOnly (c :: inner)
    | [] => false

/-! ## Lemmas about the basic string operations -/

theorem startsList_self_append (g q : Str) : startsList g (g ++ q) = true := by
  induction g with
  | nil => rfl
  | cons c g ih => simp [startsList, ih]

theorem startsList_exists {n h : Str} (hs : startsList n h = true) :
    ∃ q, h = n ++ q := by
  induction n generalizing h with
  | nil => exact ⟨h, rfl⟩
  | cons a as ih =>
    cases h with
    | nil => simp [startsList] at hs
    | cons b bs =>
      simp only [startsList, Bool.and_eq_true, decide_eq_true_eq] at hs
      obtain ⟨rfl, hs⟩ := hs
      obtain ⟨q, rfl⟩ := ih hs
      exact ⟨q, rfl⟩

/-- For a nonempty haystack, `hasSub` unfolds to a head test plus the tail scan. -/
theorem hasSub_cons (c : Char) (t n : Str) :
    hasSub (c :: t) n = (startsList n (c :: t) || hasSub t n) := rfl

theorem hasSub_intro (p n q : Str) : hasSub (p ++ (n ++ q)) n = true := by
  induction p with
  | nil =>
    rw [List.nil_append]
    cases hn : n ++ q with
    | nil =>
      have hnn : n = [] := by
        cases n with
        | nil => rfl
        | cons a as => simp at hn
      subst hnn
      rfl
    | cons c t =>
      rw [hasSub_cons, ← hn, startsList_self_append, Bool.true_or]
  | cons a p ih =>
    rw [List.cons_append, hasSub_cons, ih, Bool.or_true]

theorem hasSub_exists {h n : Str} (hs : hasSub h n = true) :
    ∃ p q, h = p ++ (n ++ q) := by
  induction h with
  | nil =>
    simp only [hasSub] at hs
    cases n with
    | nil => exact ⟨[], [], by simp⟩
    | cons a as => simp [startsList] at hs
  | cons c t ih =>
    rw [hasSub_cons, Bool.or_eq_true] at hs
    rcases hs with hs | hs
    · obtain ⟨q, hq⟩ := startsList_exists hs
      exact ⟨[], q, by simpa using hq⟩
    · obtain ⟨p, q, rfl⟩ := ih hs
      exact ⟨c :: p, q, rfl⟩

theorem hasSub_append_right {a : Str} (n : Str) (b : Str)
    (hs : hasSub a n = true) : hasSub (a ++ b) n = true := by
  obtain ⟨p, q, rfl⟩ := hasSub_exists hs
  have : p ++ (n ++ q) ++ b = p ++ (n ++ (q ++ b)) := by simp
  rw [this]
  exact hasSub_intro _ _ _

theorem hasSub_append_left {b : Str} (n : Str) (a : Str)
    (hs : hasSub b n = true) : hasSub (a ++ b) n = true := by
  obtain ⟨p, q, rfl⟩ := hasSub_exists hs
  have : a ++ (p ++ (n ++ q)) = (a ++ p) ++ (n ++ q) := by simp
  rw [this]
  exact hasSub_intro _ _ _

/-- Stripping only removes characters at the two ends: the stripped string is a
contiguous piece of the original. -/
theorem stripL_decomp (s : Str) : ∃ a b, s = a ++ (stripL s ++ b) := by
  refine ⟨s.takeWhile isSpaceChar,
    ((s.dropWhile isSpaceChar).reverse.takeWhile isSpaceChar).reverse, ?_⟩
  unfold stripL
  conv_lhs => rw [← List.takeWhile_append_dropWhile (p := isSpaceChar) (l := s)]
  congr 1
  conv_lhs => rw [← List.reverse_reverse (s.dropWhile isSpaceChar),
    ← List.takeWhile_append_dropWhile (p := isSpaceChar)
      (l := (s.dropWhile isSpaceChar).reverse)]
  rw [List.reverse_append]

/-- Anything that ends with `footer` contains `stripL footer` as a substring. -/
theorem hasSub_stripL_of_append (m footer : Str) :
    hasSub (m ++ footer) (stripL footer) = true := by
  obtain ⟨a, b, hab⟩ := stripL_decomp footer
  set g := stripL footer with hg
  rw [hab, show m ++ (a ++ (g ++ b)) = (m ++ a) ++ (g ++ b) by simp]
  exact hasSub_intro _ _ _

theorem takeWhile_append_of_drop_ne_nil {p : Char → Bool} {l : Str} (f : Str)
    (h : l.dropWhile p ≠ []) :
    (l ++ f).takeWhile p = l.takeWhile p ∧
      (l ++ f).dropWhile p = l.dropWhile p ++ f := by
  induction l with
  | nil => simp [List.dropWhile] at h
  | cons a l ih =>
    cases hpa : p a with
    | true =>
      have h' : l.dropWhile p ≠ [] := by
        simpa [List.dropWhile, hpa] using h
      obtain ⟨h1, h2⟩ := ih h'
      simp [List.takeWhile, List.dropWhile, hpa, h1, h2]
    | false => simp [List.takeWhile, List.dropWhile, hpa]

/-! ## Lemmas about the breaking-change footer -/

theorem bangColonWs_append_space {r : Str} {c0 : Char} (l : Str)
    (hc : isSpaceChar c0 = true)
    (h : bangColonWs r = true) : bangColonWs (r ++ c0 :: l) = true := by
  match r with
  | [] => simp [bangColonWs] at h
  | [c1] => simp [bangColonWs] at h
  | c1 :: c2 :: rest =>
    simp only [bangColonWs, Bool.and_eq_true, decide_eq_true_eq] at h
    obtain ⟨⟨rfl, rfl⟩, h3⟩ := h
    cases rest with
    | nil => simpa [bangColonWs] using hc
    | cons d rest' => simpa [bangColonWs] using h3

theorem breakingHeader_eq_of_drop {m : Str} {c : Char} {inner : Str}
    (hw : m.takeWhile isWordChar ≠ []) (hr : m.dropWhile isWordChar = c :: inner) :
    breakingHeader m = if c = '(' then bkParenScan inner else bangColonWs (c :: inner) := by
  unfold breakingHeader
  rw [if_neg hw, hr]

theorem breakingHeader_eq_false_of_drop_nil {m : Str}
    (hr : m.dropWhile isWordChar = []) : breakingHeader m = false := by
  unfold breakingHeader
  by_cases hw : m.takeWhile isWordChar = []
  · rw [if_pos hw]
  · rw [if_neg hw, hr]

theorem bkParenScan_append_space {inner : Str} {c0 : Char} (l : Str)
    (hc : isSpaceChar c0 = true)
    (h : bkParenScan inner = true) : bkParenScan (inner ++ c0 :: l) = true := by
  induction inner with
  | nil => simp [bkParenScan] at h
  | cons a rest ih =>
    rw [List.cons_append]
    simp only [bkParenScan] at h ⊢
    by_cases ha : a = ')'
    · subst ha
      rw [if_pos rfl] at h ⊢
      rw [Bool.or_eq_true] at h ⊢
      rcases h with h1 | h2
      · exact Or.inl (bangColonWs_append_space l hc h1)
      · exact Or.inr (ih h2)
    · by_cases hn : a = '\n'
      · simp [ha, hn] at h
      · simp only [if_neg ha, if_neg hn] at h ⊢
        exact ih h

theorem breakingHeader_append_space {m : Str} {c0 : Char} (l : Str)
    (hc : isSpaceChar c0 = true)
    (h : breakingHeader m = true) : breakingHeader (m ++ c0 :: l) = true := by
  by_cases hw : m.takeWhile isWordChar = []
  · rw [show breakingHeader m = false from by unfold breakingHeader; rw [if_pos hw]] at h
    exact absurd h (by simp)
  · cases hr : m.dropWhile isWordChar with
    | nil =>
      rw [breakingHeader_eq_false_of_drop_nil hr] at h
      exact absurd h (by simp)
    | cons c inner =>
      have hdw : m.dropWhile isWordChar ≠ [] := by rw [hr]; simp
      obtain ⟨ht, hd⟩ := takeWhile_append_of_drop_ne_nil (p := isWordChar) (c0 :: l) hdw
      have hw' : (m ++ c0 :: l).takeWhile isWordChar ≠ [] := by rw [ht]; exact hw
      have hr' : (m ++ c0 :: l).dropWhile isWordChar = c :: (inner ++ c0 :: l) := by
        rw [hd, hr, List.cons_append]
      rw [breakingHeader_eq_of_drop hw hr] at h
      rw [breakingHeader_eq_of_drop hw' hr']
      by_cases hcp : c = '('
      · rw [if_pos hcp] at h ⊢
        exact bkParenScan_append_space l hc h
      · rw [if_neg hcp] at h ⊢
        rw [show c :: (inner ++ c0 :: l) = (c :: inner) ++ c0 :: l from by simp]
        exact bangColonWs_append_space l hc h

/-! ## Lemmas towards pipeline idempotence (claim C1) -/

theorem takeWhile_all {p : Char → Bool} {l : Str} (h : ∀ c ∈ l, p c = true) :
    l.takeWhile p = l := by
  induction l with
  | nil => rfl
  | cons a as ih =>
    rw [List.takeWhile_cons, if_pos (h a (by simp)), ih fun c hc => h c (by simp [hc])]

theorem dropWhile_all {p : Char → Bool} {l : Str} (h : ∀ c ∈ l, p c = true) :
    l.dropWhile p = [] := by
  induction l with
  | nil => rfl
  | cons a as ih =>
    rw [List.dropWhile_cons, if_pos (h a (by simp)), ih fun c hc => h c (by simp [hc])]

theorem span_decomp {p : Char → Bool} {xs : Str} {y : Char} (ys : Str)
    (hxs : ∀ c ∈ xs, p c = true) (hy : p y = false) :
    (xs ++ y :: ys).takeWhile p = xs ∧ (xs ++ y :: ys).dropWhile p = y :: ys := by
  induction xs with
  | nil => simp [List.takeWhile_cons, List.dropWhile_cons, hy]
  | cons a as ih =>
    have ha : p a = true := hxs a (by simp)
    obtain ⟨h1, h2⟩ := ih fun c hc => hxs c (by simp [hc])
    simp [List.takeWhile_cons, List.dropWhile_cons, ha, h1, h2]

theorem dropWhile_head_not {p : Char → Bool} {l : Str} {c : Char} {cs : Str}
    (h : l.dropWhile p = c :: cs) : p c = false := by
  induction l with
  | nil => simp [List.dropWhile] at h
  | cons a as ih =>
    rw [List.dropWhile_cons] at h
    by_cases hp : p a = true
    · exact ih (by rwa [if_pos hp] at h)
    · rw [if_neg (by simp [hp])] at h
      cases h
      simpa using hp

theorem mem_of_mem_takeWhile {p : Char → Bool} {l : Str} {c : Char}
    (h : c ∈ l.takeWhile p) : p c = true := by
  induction l with
  | nil => simp [List.takeWhile] at h
  | cons a as ih =>
    rw [List.takeWhile_cons] at h
    by_cases hp : p a = true
    · rw [if_pos hp] at h
      rcases List.mem_cons.mp h with rfl | h
      · exact hp
      · exact ih h
    · rw [if_neg (by simp [hp])] at h
      simp at h

theorem dropLit_some {lit s rest : Str} (h : dropLit lit s = some rest) :
    s = lit ++ rest := by
  induction lit generalizing s with
  | nil => simpa [dropLit] using h
  | cons a as ih =>
    cases s with
    | nil => simp [dropLit] at h
    | cons b bs =>
      rw [dropLit] at h
      by_cases hab : a = b
      · rw [if_pos hab] at h
        rw [← hab, ih h]
        rfl
      · rw [if_neg hab] at h
        exact absurd h (by simp)

theorem dropLit_self (lit x : Str) : dropLit lit (lit ++ x) = some x := by
  induction lit with
  | nil => rfl
  | cons a as ih => simpa [dropLit] using ih

theorem dropLit_append {lit s r : Str} (u : Str) (h : dropLit lit s = some r) :
    dropLit lit (s ++ u) = some (r ++ u) := by
  rw [dropLit_some h, List.append_assoc]
  exact dropLit_self lit (r ++ u)

/-! ### `\s*(.*)$` characterizations -/

theorem dotStarEnd_no_newline {u : Str} (h : ∀ c ∈ u, c ≠ '\n') :
    dotStarEnd u = some u := by
  unfold dotStarEnd
  rw [dropWhile_all (by simpa using h), takeWhile_all (by simpa using h)]
  simp

theorem wsDotStar_of_dotStarEnd {b r : Str} (aRev : Str) (h : dotStarEnd b = some r) :
    wsDotStar aRev b = some (aRev.reverse, r) := by
  cases aRev with
  | nil => simp [wsDotStar, h]
  | cons c aRev' => simp [wsDotStar, h]

theorem wsSplit_no_newline {v : Str} (h : ∀ c ∈ v, c ≠ '\n') :
    wsSplit v = some (v.takeWhile isSpaceChar, v.dropWhile isSpaceChar) := by
  unfold wsSplit
  have hd : dotStarEnd (v.dropWhile isSpaceChar) = some (v.dropWhile isSpaceChar) :=
    dotStarEnd_no_newline fun c hc =>
      h c ((List.dropWhile_suffix (p := isSpaceChar)).subset hc)
  rw [wsDotStar_of_dotStarEnd _ hd, List.reverse_reverse]

theorem dotStarEnd_sep_none {u g : Str} (hu : '\n' ∉ u) :
    dotStarEnd (u ++ '\n' :: '\n' :: g) = none := by
  unfold dotStarEnd
  have hdrop : (u ++ '\n' :: '\n' :: g).dropWhile (fun c => c ≠ '\n') =
      '\n' :: '\n' :: g := by
    have : ∀ c ∈ u, (fun c => decide (c ≠ '\n')) c = true := by
      intro c hc
      simp only [decide_eq_true_eq]
      exact fun hcn => hu (hcn ▸ hc)
    exact (span_decomp (p := fun c => c ≠ '\n') ('\n' :: g) this (by simp)).2
  rw [hdrop]
  simp

theorem wsDotStar_sep_none {g : Str} :
    ∀ (aRev u : Str), '\n' ∉ aRev → '\n' ∉ u →
      wsDotStar aRev (u ++ '\n' :: '\n' :: g) = none := by
  intro aRev
  induction aRev with
  | nil =>
    intro u _ hu
    simp [wsDotStar, dotStarEnd_sep_none hu]
  | cons c aRev' ih =>
    intro u hc hu
    rw [wsDotStar, dotStarEnd_sep_none hu]
    have : c :: (u ++ '\n' :: '\n' :: g) = (c :: u) ++ '\n' :: '\n' :: g := by simp
    rw [this]
    exact ih (c :: u) (fun hm => hc (by simp [hm]))
      (by
        intro hm
        rcases List.mem_cons.mp hm with rfl | hm
        · exact hc (by simp)
        · exact hu hm)

/-- Pattern `\s*(.*)$` fails on any string of the form
`whitespace ++ non-space ++ ... ++ "\n\n" ++ g`. -/
theorem wsSplit_sep_none {a z g : Str} {c0 : Char}
    (ha : ∀ c ∈ a, isSpaceChar c = true) (hc0 : isSpaceChar c0 = false)
    (hnl : '\n' ∉ a ++ c0 :: z) :
    wsSplit ((a ++ c0 :: z) ++ '\n' :: '\n' :: g) = none := by
  unfold wsSplit
  have hassoc : (a ++ c0 :: z) ++ '\n' :: '\n' :: g =
      a ++ c0 :: (z ++ '\n' :: '\n' :: g) := by simp
  obtain ⟨htw, hdw⟩ := span_decomp (p := isSpaceChar) (z ++ '\n' :: '\n' :: g) ha hc0
  rw [hassoc, htw, hdw]
  have hshape : c0 :: (z ++ '\n' :: '\n' :: g) = (c0 :: z) ++ '\n' :: '\n' :: g := by
    simp
  rw [hshape]
  refine wsDotStar_sep_none _ _ ?_ ?_
  · intro hm
    exact hnl (by simp [List.mem_reverse.mp hm])
  · intro hm
    exact hnl (by
      rcases List.mem_cons.mp hm with rfl | hm
      · simp
      · simp [hm])

/-! ### `bangColonSplit` computations -/

theorem bangColonSplit_colon (rest : Str) :
    bangColonSplit (':' :: rest) = some ([':'], rest) := rfl

theorem bangColonSplit_bang (rest : Str) :
    bangColonSplit ('!' :: ':' :: rest) = some (['!', ':'], rest) := rfl

/-! ### `headerMatch` characterizations -/

theorem headerMatch_eq {s : Str} {c : Char} {inner : Str}
    (hw : s.takeWhile isWordChar ≠ []) (hd : s.dropWhile isWordChar = c :: inner) :
    headerMatch s =
      if c = '(' then hmParen (s.takeWhile isWordChar) inner
      else hmNoParen (s.takeWhile isWordChar) (c :: inner) := by
  unfold headerMatch
  rw [if_neg hw, hd]

/-! ### Facts about the conventional types -/

theorem convTypes_facts :
    ∀ ty ∈ convTypes, ty ≠ [] ∧ (∀ c ∈ ty, isWordChar c = true) ∧
      '(' ∉ ty ∧ '\n' ∉ ty := by decide

/-! ### `has_conventional_type`: introduction, elimination, monotonicity -/

theorem conv_intro {ty : Str} (z : Str) (hty : ty ∈ convTypes) {bc : Str}
    (hbc : bc = [':'] ∨ bc = ['!', ':']) :
    has_conventional_type (ty ++ (bc ++ z)) = true := by
  unfold has_conventional_type
  rw [List.any_eq_true]
  refine ⟨ty, hty, ?_⟩
  rw [dropLit_self]
  rcases hbc with rfl | rfl
  · show (if (':' : Char) = '(' then parenThenBC z
      else colonAfterBang (':' :: z)) = true
    rw [if_neg (by decide)]
    rfl
  · show (if ('!' : Char) = '(' then parenThenBC (':' :: z)
      else colonAfterBang ('!' :: ':' :: z)) = true
    rw [if_neg (by decide)]
    rfl

theorem conv_elim {s : Str} (h : has_conventional_type s = true) (hp : '(' ∉ s) :
    ∃ ty ∈ convTypes, ∃ bc rest,
      (bc = [':'] ∨ bc = ['!', ':']) ∧ s = ty ++ (bc ++ rest) := by
  unfold has_conventional_type at h
  rw [List.any_eq_true] at h
  obtain ⟨ty, hty, h⟩ := h
  refine ⟨ty, hty, ?_⟩
  cases hdl : dropLit ty s with
  | none => rw [hdl] at h; simp at h
  | some rest0 =>
    rw [hdl] at h
    have hs : s = ty ++ rest0 := dropLit_some hdl
    cases rest0 with
    | nil => simp at h
    | cons c inner =>
      have h' : (if c = '(' then parenThenBC inner
          else colonAfterBang (c :: inner)) = true := h
      by_cases hc : c = '('
      · exfalso
        exact hp (by rw [hs, hc]; simp)
      · rw [if_neg hc] at h'
        unfold colonAfterBang at h'
        rw [Bool.or_eq_true] at h'
        rcases h' with h | h
        · have hcc : c = ':' := by simpa using h
          exact ⟨[':'], inner, Or.inl rfl, by rw [hs, hcc]; rfl⟩
        · rw [Bool.and_eq_true] at h
          obtain ⟨hcb, h2⟩ := h
          have hcb' : c = '!' := by simpa using hcb
          cases inner with
          | nil => simp at h2
          | cons c2 inner2 =>
            have hc2 : c2 = ':' := by simpa using h2
            exact ⟨['!', ':'], inner2, Or.inr rfl, by rw [hs, hcb', hc2]; rfl⟩

theorem colonAfterBang_append {v : Str} (u : Str) (h : colonAfterBang v = true) :
    colonAfterBang (v ++ u) = true := by
  cases v with
  | nil => simp [colonAfterBang] at h
  | cons c rest =>
    rw [List.cons_append]
    unfold colonAfterBang at h ⊢
    rw [Bool.or_eq_true] at h ⊢
    rcases h with h | h
    · exact Or.inl h
    · rw [Bool.and_eq_true] at h
      obtain ⟨h1, h2⟩ := h
      refine Or.inr (by
        rw [Bool.and_eq_true]
        refine ⟨h1, ?_⟩
        cases rest with
        | nil => simp at h2
        | cons c2 rest2 => simpa using h2)

theorem parenThenBC_append {i : Str} (u : Str) (h : parenThenBC i = true) :
    parenThenBC (i ++ u) = true := by
  induction i with
  | nil => simp [parenThenBC] at h
  | cons a rest ih =>
    rw [List.cons_append]
    unfold parenThenBC at h ⊢
    by_cases ha : a = ')'
    · rw [if_pos ha] at h ⊢
      rw [Bool.or_eq_true] at h ⊢
      rcases h with h | h
      · exact Or.inl (colonAfterBang_append u h)
      · exact Or.inr (ih h)
    · by_cases hn : a = '\n'
      · rw [if_neg ha, if_pos hn] at h
        simp at h
      · rw [if_neg ha, if_neg hn] at h ⊢
        exact ih h

theorem conv_append {s : Str} (u : Str) (h : has_conventional_type s = true) :
    has_conventional_type (s ++ u) = true := by
  unfold has_conventional_type at h ⊢
  rw [List.any_eq_true] at h ⊢
  obtain ⟨ty, hty, h⟩ := h
  refine ⟨ty, hty, ?_⟩
  cases hdl : dropLit ty s with
  | none => rw [hdl] at h; simp at h
  | some rest0 =>
    rw [hdl] at h
    rw [dropLit_append u hdl]
    cases rest0 with
    | nil => simp at h
    | cons c inner =>
      have h' : (if c = '(' then parenThenBC inner
          else colonAfterBang (c :: inner)) = true := h
      show (if c = '(' then parenThenBC (inner ++ u)
          else colonAfterBang (c :: (inner ++ u))) = true
      by_cases hc : c = '('
      · rw [if_pos hc] at h' ⊢
        exact parenThenBC_append u h'
      · rw [if_neg hc] at h' ⊢
        rw [show c :: (inner ++ u) = (c :: inner) ++ u from by simp]
        exact colonAfterBang_append u h'

theorem conv_suggest (m : Str) :
    has_conventional_type (suggest_type_header m) = true := by
  by_cases h : has_conventional_type m = true
  · unfold suggest_type_header
    rw [if_pos h]
    exact h
  · unfold suggest_type_header
    rw [if_neg h]
    by_cases hd : (hasSub (toLowerL m) ("doc".data) ||
        hasSub (toLowerL m) ("readme".data)) = true
    · rw [if_pos hd]; rfl
    · rw [if_neg hd]; rfl

/-! ### `fix_duplicate_scope` is the identity on paren-free strings -/

theorem fallbackCollapse_no_paren {s : Str} (hp : '(' ∉ s) :
    fallbackCollapse s = s := by
  unfold fallbackCollapse
  by_cases hw : s.takeWhile isWordChar = []
  · rw [if_pos hw]
  · rw [if_neg hw]
    cases hd : s.dropWhile isWordChar with
    | nil => rfl
    | cons c inner =>
      have hc : c ≠ '(' := by
        intro hcc
        refine hp ?_
        have hmem : c ∈ s := (List.dropWhile_suffix (p := isWordChar)).subset
          (by rw [hd]; simp)
        rwa [hcc] at hmem
      show (if c = '(' then _ else s) = s
      rw [if_neg hc]

theorem fix_no_paren {s : Str} (hp : '(' ∉ s) : fix_duplicate_scope s = s := by
  unfold fix_duplicate_scope
  by_cases hw : s.takeWhile isWordChar = []
  · rw [if_pos hw]
    exact fallbackCollapse_no_paren hp
  · rw [if_neg hw]
    cases hd : s.dropWhile isWordChar with
    | nil => exact fallbackCollapse_no_paren hp
    | cons c inner =>
      have hc : c ≠ '(' := by
        intro hcc
        refine hp ?_
        have hmem : c ∈ s := (List.dropWhile_suffix (p := isWordChar)).subset
          (by rw [hd]; simp)
        rwa [hcc] at hmem
      show (if c = '(' then _ else fallbackCollapse s) = s
      rw [if_neg hc]
      exact fallbackCollapse_no_paren hp

/-! ### `add_footer_if_breaking_change`: closed form and idempotence -/

theorem add_footer_eq (m t : Str) :
    add_footer_if_breaking_change m t =
      if (breakingHeader m || hasSub m ("BREAKING CHANGE:".data)) &&
          !hasSub m (stripL (breakingFooter (toUpperL t))) then
        m ++ breakingFooter (toUpperL t)
      else m := by
  unfold add_footer_if_breaking_change
  cases h1 : breakingHeader m || hasSub m ("BREAKING CHANGE:".data) with
  | false => simp [h1]
  | true =>
    cases h2 : hasSub m (stripL (breakingFooter (toUpperL t))) with
    | false => simp [h1, h2]
    | true => simp [h1, h2]

theorem add_footer_idem (m t : Str) :
    add_footer_if_breaking_change (add_footer_if_breaking_change m t) t =
      add_footer_if_breaking_change m t := by
  cases h1 : (breakingHeader m || hasSub m ("BREAKING CHANGE:".data)) with
  | false =>
    have e : add_footer_if_breaking_change m t = m := by rw [add_footer_eq m t, h1]; simp
    rw [e, e]
  | true =>
    cases h2 : hasSub m (stripL (breakingFooter (toUpperL t))) with
    | true =>
      have e : add_footer_if_breaking_change m t = m := by
        rw [add_footer_eq m t, h1, h2]; simp
      rw [e, e]
    | false =>
      have e : add_footer_if_breaking_change m t = m ++ breakingFooter (toUpperL t) := by
        rw [add_footer_eq m t, h1, h2]; simp
      rw [e]
      rw [add_footer_eq (m ++ breakingFooter (toUpperL t)) t]
      have hcond : (breakingHeader (m ++ breakingFooter (toUpperL t)) ||
          hasSub (m ++ breakingFooter (toUpperL t)) ("BREAKING CHANGE:".data)) = true := by
        rw [Bool.or_eq_true] at h1 ⊢
        rcases h1 with h1 | h1
        · exact Or.inl (breakingHeader_append_space _ (by decide) h1)
        · exact Or.inr (hasSub_append_right _ _ h1)
      rw [hcond, hasSub_stripL_of_append]
      simp

/-! ### `hmNoParen` and `headerMatch` computations for conventional headers -/

theorem hmNoParen_colon (w rest : Str) (hnl : ∀ c ∈ rest, c ≠ '\n') :
    hmNoParen w (':' :: rest) =
      some (w ++ [':'] ++ rest.takeWhile isSpaceChar, rest.dropWhile isSpaceChar) := by
  unfold hmNoParen
  rw [bangColonSplit_colon]
  show (match wsSplit rest with
    | some (ws, r) => some (w ++ [':'] ++ ws, r)
    | none => none) = _
  rw [wsSplit_no_newline hnl]

theorem hmNoParen_bang (w rest : Str) (hnl : ∀ c ∈ rest, c ≠ '\n') :
    hmNoParen w ('!' :: ':' :: rest) =
      some (w ++ ['!', ':'] ++ rest.takeWhile isSpaceChar, rest.dropWhile isSpaceChar) := by
  unfold hmNoParen
  rw [bangColonSplit_bang]
  show (match wsSplit rest with
    | some (ws, r) => some (w ++ ['!', ':'] ++ ws, r)
    | none => none) = _
  rw [wsSplit_no_newline hnl]

theorem hmNoParen_colon_none (w u : Str) (h : wsSplit u = none) :
    hmNoParen w (':' :: u) = none := by
  unfold hmNoParen
  rw [bangColonSplit_colon]
  show (match wsSplit u with
    | some (ws, r) => some (w ++ [':'] ++ ws, r)
    | none => none) = none
  rw [h]

theorem hmNoParen_bang_none (w u : Str) (h : wsSplit u = none) :
    hmNoParen w ('!' :: ':' :: u) = none := by
  unfold hmNoParen
  rw [bangColonSplit_bang]
  show (match wsSplit u with
    | some (ws, r) => some (w ++ ['!', ':'] ++ ws, r)
    | none => none) = none
  rw [h]

/-- Computing `headerMatch` on `ty ++ bc ++ rest` for a word-run `ty` and `bc` in {colon, bang-colon}
with a newline-free `rest`: the greedy `\s*` takes the whitespace run of `rest`. -/
theorem headerMatch_conv {ty bc : Str} (rest : Str) (htyne : ty ≠ [])
    (htyw : ∀ c ∈ ty, isWordChar c = true) (hbc : bc = [':'] ∨ bc = ['!', ':'])
    (hnl : ∀ c ∈ rest, c ≠ '\n') :
    headerMatch (ty ++ (bc ++ rest)) =
      some (ty ++ (bc ++ rest.takeWhile isSpaceChar), rest.dropWhile isSpaceChar) := by
  rcases hbc with rfl | rfl
  · have hshape : ty ++ ([':'] ++ rest) = ty ++ ':' :: rest := rfl
    obtain ⟨htw, hdw⟩ := span_decomp (p := isWordChar) rest htyw
      (show isWordChar ':' = false by decide)
    rw [hshape, headerMatch_eq (by rw [htw]; exact htyne) hdw,
      if_neg (show ¬(':' : Char) = '(' by decide), htw, hmNoParen_colon ty rest hnl]
    simp
  · have hshape : ty ++ (['!', ':'] ++ rest) = ty ++ '!' :: ':' :: rest := rfl
    obtain ⟨htw, hdw⟩ := span_decomp (p := isWordChar) (':' :: rest) htyw
      (show isWordChar '!' = false by decide)
    rw [hshape, headerMatch_eq (by rw [htw]; exact htyne) hdw,
      if_neg (show ¬('!' : Char) = '(' by decide), htw, hmNoParen_bang ty rest hnl]
    simp

/-- Failure of `headerMatch` on `ty ++ bc ++ v ++ blank-line ++ g` when `v` is a
whitespace run followed by a non-space character (the inserted ticket or the
rest of the header line): `(.*)$` cannot bridge the blank-line separator. -/
theorem headerMatch_conv_sep_none {ty bc a z : Str} {c0 : Char} (g : Str)
    (htyne : ty ≠ []) (htyw : ∀ c ∈ ty, isWordChar c = true)
    (hbc : bc = [':'] ∨ bc = ['!', ':'])
    (ha : ∀ c ∈ a, isSpaceChar c = true) (hc0 : isSpaceChar c0 = false)
    (hnl : '\n' ∉ a ++ c0 :: z) :
    headerMatch (ty ++ (bc ++ ((a ++ c0 :: z) ++ '\n' :: '\n' :: g))) = none := by
  have hws := wsSplit_sep_none (g := g) ha hc0 hnl
  rcases hbc with rfl | rfl
  · have hshape : ty ++ ([':'] ++ ((a ++ c0 :: z) ++ '\n' :: '\n' :: g)) =
        ty ++ ':' :: ((a ++ c0 :: z) ++ '\n' :: '\n' :: g) := rfl
    obtain ⟨htw, hdw⟩ := span_decomp (p := isWordChar)
      ((a ++ c0 :: z) ++ '\n' :: '\n' :: g) htyw (show isWordChar ':' = false by decide)
    rw [hshape, headerMatch_eq (by rw [htw]; exact htyne) hdw,
      if_neg (show ¬(':' : Char) = '(' by decide),
      hmNoParen_colon_none _ _ hws]
  · have hshape : ty ++ (['!', ':'] ++ ((a ++ c0 :: z) ++ '\n' :: '\n' :: g)) =
        ty ++ '!' :: ':' :: ((a ++ c0 :: z) ++ '\n' :: '\n' :: g) := rfl
    obtain ⟨htw, hdw⟩ := span_decomp (p := isWordChar)
      (':' :: ((a ++ c0 :: z) ++ '\n' :: '\n' :: g)) htyw
      (show isWordChar '!' = false by decide)
    rw [hshape, headerMatch_eq (by rw [htw]; exact htyne) hdw,
      if_neg (show ¬('!' : Char) = '(' by decide),
      hmNoParen_bang_none _ _ hws]

/-! ### `ensure_ticket_in_header` computations -/

theorem ensure_noop_some {s pre rest t : Str}
    (hm : headerMatch s = some (pre, rest))
    (hsub : hasSub rest (toUpperL t) = true) :
    ensure_ticket_in_header s t = s := by
  unfold ensure_ticket_in_header
  rw [hm]
  simp only [hsub, if_pos]

theorem ensure_insert_some {s pre rest t : Str}
    (hm : headerMatch s = some (pre, rest))
    (hsub : hasSub rest (toUpperL t) = false) :
    ensure_ticket_in_header s t = pre ++ toUpperL t ++ ' ' :: rest := by
  unfold ensure_ticket_in_header
  rw [hm]
  simp only [hsub]
  simp

theorem ensure_noop_none {s t : Str}
    (hm : headerMatch s = none) (hsub : hasSub s (toUpperL t) = true) :
    ensure_ticket_in_header s t = s := by
  unfold ensure_ticket_in_header
  rw [hm]
  simp only [hsub, if_pos]

/-- The needle is a substring of any list it starts. -/
theorem hasSub_self_append (n x : Str) : hasSub (n ++ x) n = true := by
  have := hasSub_intro [] n x
  simpa using this

theorem hasSub_nil_of_ne {n : Str} (hn : n ≠ []) : hasSub [] n = false := by
  cases n with
  | nil => exact absurd rfl hn
  | cons a as => rfl

theorem mem_of_takeWhile_mem {p : Char → Bool} {l : Str} {c : Char}
    (h : c ∈ l.takeWhile p) : c ∈ l := by
  induction l with
  | nil => simp [List.takeWhile] at h
  | cons x xs ih =>
    rw [List.takeWhile_cons] at h
    by_cases hp : p x = true
    · rw [if_pos hp] at h
      rcases List.mem_cons.mp h with rfl | h
      · simp
      · simp [ih h]
    · rw [if_neg (by simp [hp])] at h
      simp at h

/-- Every character of `suggest_type_header m` comes from `m` or from the
prepended `docs: ` / `feat: ` header. -/
theorem suggest_mem {c : Char} {m : Str} (h : c ∈ suggest_type_header m) :
    c ∈ m ∨ c ∈ "docs".data ∨ c ∈ "feat".data ∨ c = ':' ∨ c = ' ' := by
  unfold suggest_type_header at h
  by_cases hct : has_conventional_type m = true
  · rw [if_pos hct] at h
    exact Or.inl h
  · rw [if_neg hct] at h
    by_cases hd : (hasSub (toLowerL m) ("doc".data) ||
        hasSub (toLowerL m) ("readme".data)) = true
    · rw [if_pos hd] at h
      rcases List.mem_append.mp h with h1 | h1
      · exact Or.inr (Or.inl h1)
      · rcases List.mem_cons.mp h1 with rfl | h2
        · exact Or.inr (Or.inr (Or.inr (Or.inl rfl)))
        · rcases List.mem_cons.mp h2 with rfl | h3
          · exact Or.inr (Or.inr (Or.inr (Or.inr rfl)))
          · exact Or.inl h3
    · rw [if_neg hd] at h
      rcases List.mem_append.mp h with h1 | h1
      · exact Or.inr (Or.inr (Or.inl h1))
      · rcases List.mem_cons.mp h1 with rfl | h2
        · exact Or.inr (Or.inr (Or.inr (Or.inl rfl)))
        · rcases List.mem_cons.mp h2 with rfl | h3
          · exact Or.inr (Or.inr (Or.inr (Or.inr rfl)))
          · exact Or.inl h3

/-! ## Claim C1 -/

/-- Claim C1 counterexample: for the multi-line message `m = "x\nbody"` and
ticket `AB-1`, the header regex of `ensure_ticket_in_header` cannot match (the
`(.*)$` group cannot bridge the newline), so the ticket is prepended to the
whole message; the second application no longer sees a conventional type at the
start and prepends `feat: ` again — the pipeline is not idempotent. -/
theorem C1_counterexample :
    correctionPipeline "x\nbody".data "AB-1".data = "AB-1 feat: x\nbody".data ∧
      correctionPipeline (correctionPipeline "x\nbody".data "AB-1".data) "AB-1".data =
        "feat: AB-1 feat: x\nbody".data ∧
      correctionPipeline (correctionPipeline "x\nbody".data "AB-1".data) "AB-1".data ≠
        correctionPipeline "x\nbody".data "AB-1".data := by
  refine ⟨by decide, by decide, by decide⟩

/-- Claim C1 (amended): the pipeline (type suggestion when needed, duplicate
scope fix, ticket insertion, breaking-change footer — exactly the stage order of
`main`) is idempotent for every message containing no newline and no opening
parenthesis, and every ticket whose upper-casing is nonempty and contains no
whitespace and no opening parenthesis. -/
theorem C1_pipeline_idempotent_amended (m t : Str)
    (hmnl : '\n' ∉ m) (hmpar : '(' ∉ m)
    (htne : toUpperL t ≠ [])
    (htws : ∀ c ∈ toUpperL t, isSpaceChar c = false)
    (htpar : '(' ∉ toUpperL t) :
    correctionPipeline (correctionPipeline m t) t = correctionPipeline m t := by
  have hnlT : '\n' ∉ toUpperL t := by
    intro hc
    have := htws '\n' hc
    exact absurd this (by decide)
  -- Stage 0: the message after type suggestion.
  set m1 := if has_conventional_type m then m else suggest_type_header m with hm1def
  have hm1conv : has_conventional_type m1 = true := by
    rw [hm1def]
    by_cases h : has_conventional_type m = true
    · rw [if_pos h]; exact h
    · rw [if_neg h]; exact conv_suggest m
  have hm1nl : '\n' ∉ m1 := by
    rw [hm1def]
    by_cases h : has_conventional_type m = true
    · rw [if_pos h]; exact hmnl
    · rw [if_neg h]
      intro hc
      rcases suggest_mem hc with h1 | h1 | h1 | h1 | h1
      · exact hmnl h1
      · exact absurd h1 (by decide)
      · exact absurd h1 (by decide)
      · exact absurd h1 (by decide)
      · exact absurd h1 (by decide)
  have hm1par : '(' ∉ m1 := by
    rw [hm1def]
    by_cases h : has_conventional_type m = true
    · rw [if_pos h]; exact hmpar
    · rw [if_neg h]
      intro hc
      rcases suggest_mem hc with h1 | h1 | h1 | h1 | h1
      · exact hmpar h1
      · exact absurd h1 (by decide)
      · exact absurd h1 (by decide)
      · exact absurd h1 (by decide)
      · exact absurd h1 (by decide)
  -- Structure of the conventional header.
  obtain ⟨ty, hty, bc, rest, hbc, hm1eq⟩ := conv_elim hm1conv hm1par
  obtain ⟨htyne, htyw, htypar, htynl⟩ := convTypes_facts ty hty
  have hrestnl : ∀ c ∈ rest, c ≠ '\n' := by
    intro c hc he
    subst he
    exact hm1nl (by rw [hm1eq]; simp [hc])
  have hrestpar : '(' ∉ rest := by
    intro hc
    exact hm1par (by rw [hm1eq]; simp [hc])
  have hbcpar : '(' ∉ bc := by rcases hbc with rfl | rfl <;> decide
  -- Whitespace split of the rest of the header line.
  obtain ⟨a, hadef⟩ : ∃ x, x = rest.takeWhile isSpaceChar := ⟨_, rfl⟩
  obtain ⟨b, hbdef⟩ : ∃ x, x = rest.dropWhile isSpaceChar := ⟨_, rfl⟩
  have haws : ∀ c ∈ a, isSpaceChar c = true := by
    intro c hc
    rw [hadef] at hc
    exact mem_of_mem_takeWhile hc
  have hamem : ∀ c ∈ a, c ∈ rest := by
    intro c hc
    rw [hadef] at hc
    exact mem_of_takeWhile_mem hc
  have hbmem : ∀ c ∈ b, c ∈ rest := by
    intro c hc
    rw [hbdef] at hc
    exact (List.dropWhile_suffix (p := isSpaceChar)).subset hc
  have hrestab : rest = a ++ b := by
    rw [hadef, hbdef, List.takeWhile_append_dropWhile]
  have hhm : headerMatch m1 = some (ty ++ (bc ++ a), b) := by
    rw [hm1eq, headerMatch_conv rest htyne htyw hbc hrestnl, ← hadef, ← hbdef]
  -- Stage 2 output and its stability.
  have key : ∃ aa c0 z,
      ensure_ticket_in_header m1 t = ty ++ (bc ++ (aa ++ c0 :: z)) ∧
      (∀ c ∈ aa, isSpaceChar c = true) ∧ isSpaceChar c0 = false ∧
      ('\n' ∉ aa ++ c0 :: z) ∧ ('(' ∉ aa ++ c0 :: z) ∧
      hasSub (ensure_ticket_in_header m1 t) (toUpperL t) = true ∧
      ensure_ticket_in_header (ensure_ticket_in_header m1 t) t =
        ensure_ticket_in_header m1 t := by
    by_cases hsub : hasSub b (toUpperL t) = true
    · -- the ticket is already in the rest of the header line: no insertion
      have hens : ensure_ticket_in_header m1 t = m1 := ensure_noop_some hhm hsub
      have hbne : b ≠ [] := by
        intro hb
        rw [hb, hasSub_nil_of_ne htne] at hsub
        exact absurd hsub (by simp)
      obtain ⟨c0, z, hbeq⟩ := List.exists_cons_of_ne_nil hbne
      have hc0 : isSpaceChar c0 = false := by
        have hdw : rest.dropWhile isSpaceChar = c0 :: z := by rw [← hbdef, hbeq]
        exact dropWhile_head_not hdw
      refine ⟨a, c0, z, ?_, haws, hc0, ?_, ?_, ?_, ?_⟩
      · rw [hens, hm1eq, hrestab, hbeq]
      · rw [← hbeq, ← hrestab]
        intro hc
        exact hrestnl '\n' hc rfl
      · rw [← hbeq, ← hrestab]
        exact hrestpar
      · rw [hens]
        have hsplit : m1 = (ty ++ (bc ++ a)) ++ b := by
          rw [hm1eq, hrestab]; simp
        rw [hsplit]
        exact hasSub_append_left _ _ hsub
      · rw [hens, hens]
    · -- the ticket is inserted after the header
      have hsubf : hasSub b (toUpperL t) = false := by
        cases hx : hasSub b (toUpperL t) with
        | false => rfl
        | true => exact absurd hx hsub
      have hens : ensure_ticket_in_header m1 t =
          (ty ++ (bc ++ a)) ++ toUpperL t ++ ' ' :: b := ensure_insert_some hhm hsubf
      obtain ⟨Tc, T', hTeq⟩ := List.exists_cons_of_ne_nil htne
      have hTcmem : Tc ∈ toUpperL t := by rw [hTeq]; simp
      have hTmem : ∀ c ∈ T', c ∈ toUpperL t := by
        intro c hc
        rw [hTeq]
        simp [hc]
      have hTcws : isSpaceChar Tc = false := htws Tc hTcmem
      have hvnl : '\n' ∉ a ++ Tc :: (T' ++ ' ' :: b) := by
        intro hc
        rcases List.mem_append.mp hc with h1 | h1
        · exact hrestnl '\n' (hamem '\n' h1) rfl
        rcases List.mem_cons.mp h1 with h2 | h2
        · exact hnlT (h2 ▸ hTcmem)
        rcases List.mem_append.mp h2 with h3 | h3
        · exact hnlT (hTmem '\n' h3)
        rcases List.mem_cons.mp h3 with h4 | h4
        · exact absurd h4 (by decide)
        · exact hrestnl '\n' (hbmem '\n' h4) rfl
      have hvpar : '(' ∉ a ++ Tc :: (T' ++ ' ' :: b) := by
        intro hc
        rcases List.mem_append.mp hc with h1 | h1
        · exact hrestpar (hamem '(' h1)
        rcases List.mem_cons.mp h1 with h2 | h2
        · exact htpar (h2 ▸ hTcmem)
        rcases List.mem_append.mp h2 with h3 | h3
        · exact htpar (hTmem '(' h3)
        rcases List.mem_cons.mp h3 with h4 | h4
        · exact absurd h4 (by decide)
        · exact hrestpar (hbmem '(' h4)
      have hTshape : toUpperL t ++ ' ' :: b = Tc :: (T' ++ ' ' :: b) := by
        rw [hTeq]; rfl
      refine ⟨a, Tc, T' ++ ' ' :: b, ?_, haws, hTcws, hvnl, hvpar, ?_, ?_⟩
      · rw [hens, ← hTshape]
        simp
      · rw [hens]
        have hsplit : (ty ++ (bc ++ a)) ++ toUpperL t ++ ' ' :: b =
            (ty ++ (bc ++ a)) ++ (toUpperL t ++ (' ' :: b)) := by simp
        rw [hsplit]
        exact hasSub_intro _ _ _
      · rw [hens]
        have hshape : (ty ++ (bc ++ a)) ++ toUpperL t ++ ' ' :: b =
            ty ++ (bc ++ (a ++ (toUpperL t ++ ' ' :: b))) := by simp
        rw [hshape]
        have hrest'nl : ∀ c ∈ a ++ (toUpperL t ++ ' ' :: b), c ≠ '\n' := by
          intro c hc he
          subst he
          refine absurd ?_ hvnl
          rw [← hTshape]
          exact hc
        obtain ⟨h1, h2⟩ := span_decomp (p := isSpaceChar) (T' ++ ' ' :: b) haws hTcws
        have hm' : headerMatch (ty ++ (bc ++ (a ++ (toUpperL t ++ ' ' :: b)))) =
            some (ty ++ (bc ++ a), toUpperL t ++ ' ' :: b) := by
          rw [headerMatch_conv _ htyne htyw hbc hrest'nl, hTshape, h1, h2, ← hTshape]
        exact ensure_noop_some hm' (hasSub_self_append (toUpperL t) (' ' :: b))
    -- Assemble: the once-piped message and its stability under every stage.
  obtain ⟨aa, c0, z, hm3eq, haa, hc0, hvnl, hvpar, hm3T, hens3⟩ := key
  set m3 := ensure_ticket_in_header m1 t with hm3def
  have hm3conv : has_conventional_type m3 = true := by
    rw [hm3eq]
    exact conv_intro _ hty hbc
  have hm3par : '(' ∉ m3 := by
    rw [hm3eq]
    intro hc
    rcases List.mem_append.mp hc with h1 | h1
    · exact htypar h1
    rcases List.mem_append.mp h1 with h2 | h2
    · exact hbcpar h2
    · exact hvpar h2
  have hpipe : correctionPipeline m t = add_footer_if_breaking_change m3 t := by
    show add_footer_if_breaking_change (ensure_ticket_in_header (fix_duplicate_scope
      (if has_conventional_type m then m else suggest_type_header m)) t) t = _
    rw [← hm1def, fix_no_paren hm1par, ← hm3def]
  rw [hpipe, add_footer_eq m3 t]
  cases hcnd : ((breakingHeader m3 || hasSub m3 ("BREAKING CHANGE:".data)) &&
      !hasSub m3 (stripL (breakingFooter (toUpperL t)))) with
  | false =>
    rw [if_neg (by simp)]
    show add_footer_if_breaking_change (ensure_ticket_in_header (fix_duplicate_scope
      (if has_conventional_type m3 then m3 else suggest_type_header m3)) t) t = m3
    rw [if_pos hm3conv, fix_no_paren hm3par, hens3, add_footer_eq m3 t, hcnd]
    simp
  | true =>
    rw [if_pos rfl]
    have hFpar : '(' ∉ breakingFooter (toUpperL t) := by
      intro hc
      unfold breakingFooter at hc
      rcases List.mem_cons.mp hc with h1 | h1
      · exact absurd h1 (by decide)
      rcases List.mem_cons.mp h1 with h2 | h2
      · exact absurd h2 (by decide)
      rcases List.mem_append.mp h2 with h3 | h3
      · exact htpar h3
      · exact absurd h3 (by decide)
    have hrpar : '(' ∉ m3 ++ breakingFooter (toUpperL t) := by
      intro hc
      rcases List.mem_append.mp hc with h | h
      · exact hm3par h
      · exact hFpar h
    have hrconv : has_conventional_type (m3 ++ breakingFooter (toUpperL t)) = true :=
      conv_append _ hm3conv
    have hrhm : headerMatch (m3 ++ breakingFooter (toUpperL t)) = none := by
      have hshape : m3 ++ breakingFooter (toUpperL t) =
          ty ++ (bc ++ ((aa ++ c0 :: z) ++ '\n' :: '\n' ::
            (toUpperL t ++ " #comment Breaking change; review impacts #resolve".data))) := by
        rw [hm3eq]
        show _ = ty ++ (bc ++ ((aa ++ c0 :: z) ++ breakingFooter (toUpperL t)))
        simp
      rw [hshape]
      exact headerMatch_conv_sep_none _ htyne htyw hbc haa hc0 hvnl
    have hrens : ensure_ticket_in_header (m3 ++ breakingFooter (toUpperL t)) t =
        m3 ++ breakingFooter (toUpperL t) :=
      ensure_noop_none hrhm (hasSub_append_right _ _ hm3T)
    show add_footer_if_breaking_change (ensure_ticket_in_header (fix_duplicate_scope
      (if has_conventional_type (m3 ++ breakingFooter (toUpperL t)) then
        m3 ++ breakingFooter (toUpperL t)
       else suggest_type_header (m3 ++ breakingFooter (toUpperL t)))) t) t =
      m3 ++ breakingFooter (toUpperL t)
    rw [if_pos hrconv, fix_no_paren hrpar, hrens]
    have hr : m3 ++ breakingFooter (toUpperL t) = add_footer_if_breaking_change m3 t := by
      rw [add_footer_eq m3 t, hcnd]
      simp
    rw [hr]
    exact add_footer_idem m3 t

/-- Witness for C1 (amended): a concrete single-line, paren-free message and a
well-formed ticket. -/
theorem C1_pipeline_idempotent_amended_witness :
    ('\n' ∉ "hello world".data) ∧ ('(' ∉ "hello world".data) ∧
      (toUpperL "ab-12".data ≠ []) ∧
      (∀ c ∈ toUpperL "ab-12".data, isSpaceChar c = false) ∧
      ('(' ∉ toUpperL "ab-12".data) ∧
      correctionPipeline (correctionPipeline "hello world".data "ab-12".data)
          "ab-12".data =
        correctionPipeline "hello world".data "ab-12".data :=
  ⟨by decide, by decide, by decide, by decide, by decide,
   C1_pipeline_idempotent_amended "hello world".data "ab-12".data
     (by decide) (by decide) (by decide) (by decide) (by decide)⟩

/-! ## Claim C2 -/

/-- Claim C2 counterexample: the claim states that
`fix_duplicate_scope "feat: feat: x"` returns `"feat: x"`; in fact the function
returns the message unchanged, because the fallback regex
`^(\w+\(.*?\):)\s*\1` requires a parenthesised scope. -/
theorem C2_counterexample :
    fix_duplicate_scope "feat: feat: x".data = "feat: feat: x".data ∧
      fix_duplicate_scope "feat: feat: x".data ≠ "feat: x".data := by
  constructor
  · decide
  · decide

/-- Claim C2 (amended): when the header does not parse as `type(scope):`,
`fix_duplicate_scope` applies the fallback regex `^(\w+\(.*?\):)\s*\1`, which
collapses an exactly-repeated prefix only when that prefix contains a
parenthesised part; a parenthesis-free repeated prefix such as `feat: feat: x`
is returned unchanged, while e.g. `feat(a)b): feat(a)b): x` collapses to
`feat(a)b): x`. -/
theorem C2_fallback_requires_parens :
    (∀ x : Str,
        fix_duplicate_scope ("feat: feat: ".data ++ x) = "feat: feat: ".data ++ x) ∧
      fix_duplicate_scope "feat(a)b): feat(a)b): x".data = "feat(a)b): x".data := by
  constructor
  · intro x; rfl
  · decide

/-! ## Claim C3 -/

/-- Claim C3 counterexample: for `m = "feat!:x"` and `t = "AB-1"`, the message is
breaking according to the claim's header test `^type(\(scope\))?!:` and the
footer is not present, so the claim requires the footer to be appended; the code
requires whitespace or end-of-string after `!:` and returns `m` unchanged. -/
theorem C3_counterexample :
    specLooseBreakingHeader "feat!:x".data = true ∧
      hasSub "feat!:x".data (breakingFooter (toUpperL "AB-1".data)) = false ∧
      add_footer_if_breaking_change "feat!:x".data "AB-1".data = "feat!:x".data ∧
      "feat!:x".data ≠ "feat!:x".data ++ breakingFooter (toUpperL "AB-1".data) := by
  refine ⟨by decide, by decide, by decide, by decide⟩

/-- Claim C3 (amended): `add_footer_if_breaking_change m t` appends the footer
iff the code's breaking condition holds — the header matches
`^(\w+)(?:\(.*?\))?!:` followed by whitespace or end-of-string, or `m` contains
`BREAKING CHANGE:` — and the *stripped* footer
`{T} #comment Breaking change; review impacts #resolve` is not already a
substring of `m`; otherwise it returns `m` unchanged.  In particular applying it
twice with the same ticket equals applying it once. -/
theorem C3_breaking_footer_amended :
    (∀ m t : Str,
        add_footer_if_breaking_change m t =
          if (breakingHeader m || hasSub m ("BREAKING CHANGE:".data)) &&
              !hasSub m (stripL (breakingFooter (toUpperL t))) then
            m ++ breakingFooter (toUpperL t)
          else m) ∧
      (∀ m t : Str,
        add_footer_if_breaking_change (add_footer_if_breaking_change m t) t =
          add_footer_if_breaking_change m t) :=
  ⟨fun m t => add_footer_eq m t, fun m t => add_footer_idem m t⟩

/-! ## Claim C4 -/

/-- Claim C4 counterexample: `t = "ab-1"` occurs as a substring of
`m = "feat: ab-1 x"`, but `ensure_ticket_in_header` compares the *upper-cased*
ticket `AB-1` against the rest of the header line, does not find it, and inserts
it — so the result differs from `m`. -/
theorem C4_counterexample :
    hasSub "feat: ab-1 x".data "ab-1".data = true ∧
      ensure_ticket_in_header "feat: ab-1 x".data "ab-1".data =
        "feat: AB-1 ab-1 x".data ∧
      ensure_ticket_in_header "feat: ab-1 x".data "ab-1".data ≠ "feat: ab-1 x".data := by
  refine ⟨by decide, by decide, by decide⟩

/-- Claim C4 (amended): `ensure_ticket_in_header m t` returns `m` unchanged when
the *upper-cased* ticket occurs in the checked region: in the `(.*)$` group of the
header match when the header regex matches, and anywhere in `m` when it does not. -/
theorem C4_no_duplicate_insertion (m t : Str) :
    (∀ pre rest, headerMatch m = some (pre, rest) →
        hasSub rest (toUpperL t) = true → ensure_ticket_in_header m t = m) ∧
      (headerMatch m = none →
        hasSub m (toUpperL t) = true → ensure_ticket_in_header m t = m) := by
  constructor
  · intro pre rest hm hsub
    unfold ensure_ticket_in_header
    rw [hm]
    simp only [hsub, if_pos]
  · intro hm hsub
    unfold ensure_ticket_in_header
    rw [hm]
    simp only [hsub, if_pos]

/-- Witness for C4: a concrete message whose header parses and already contains
the upper-cased ticket. -/
theorem C4_no_duplicate_insertion_witness :
    headerMatch "feat: AB-1 x".data = some ("feat: ".data, "AB-1 x".data) ∧
      hasSub "AB-1 x".data (toUpperL "ab-1".data) = true ∧
      ensure_ticket_in_header "feat: AB-1 x".data "ab-1".data = "feat: AB-1 x".data :=
  ⟨by decide, by decide,
    (C4_no_duplicate_insertion "feat: AB-1 x".data "ab-1".data).1
      "feat: ".data "AB-1 x".data (by decide) (by decide)⟩

/-! ## Claim C5 -/

/-- Claim C5: with a directory containing exactly `a.hook` (exit 0), `b.hook`
(exit 1) and `c.hook` (exit 0) — listed here in arbitrary order, both dispatchers
sort by filename — the generated dispatcher and `pre-commit/dispatcher.py` run
`a.hook` then `b.hook`, stop, and exit with code 1; `c.hook` is never executed. -/
theorem C5_dispatcher_short_circuit :
    (generatedDispatcher
        [⟨"c.hook".data, 0, [], []⟩, ⟨"a.hook".data, 0, [], []⟩,
         ⟨"b.hook".data, 1, [], []⟩]).1 = 1 ∧
      (generatedDispatcher
        [⟨"c.hook".data, 0, [], []⟩, ⟨"a.hook".data, 0, [], []⟩,
         ⟨"b.hook".data, 1, [], []⟩]).2.1 = ["a.hook".data, "b.hook".data] ∧
      (precommitDispatcher
        [⟨"c.hook".data, 0, [], []⟩, ⟨"a.hook".data, 0, [], []⟩,
         ⟨"b.hook".data, 1, [], []⟩]).1 = 1 ∧
      (precommitDispatcher
        [⟨"c.hook".data, 0, [], []⟩, ⟨"a.hook".data, 0, [], []⟩,
         ⟨"b.hook".data, 1, [], []⟩]).2.1 = ["a.hook".data, "b.hook".data] := by
  refine ⟨by decide, by decide, by decide, by decide⟩

/-! ## Claim C6 -/

/-- Claim C6 counterexample: the dispatcher generated by `install.py` executes
`a.hook`, which exits 0 with non-empty stdout `hello`, yet emits no replay
events at all — captured output of succeeding hooks is discarded. -/
theorem C6_counterexample :
    (generatedDispatcher [⟨"a.hook".data, 0, "hello".data, "oops".data⟩]).2.1 =
        ["a.hook".data] ∧
      "hello".data ≠ ([] : Str) ∧
      (generatedDispatcher [⟨"a.hook".data, 0, "hello".data, "oops".data⟩]).2.2 = [] := by
  refine ⟨by decide, by decide, by decide⟩

/-- Claim C6 (amended): the generated dispatcher replays captured stdout/stderr
only for the hook that fails (and then stops); hooks exiting 0 have their output
discarded.  `pre-commit/dispatcher.py`, in contrast, replays every executed
hook's stripped, non-empty stdout/stderr. -/
theorem C6_replay_amended :
    (∀ (pre : List HookFile) (h : HookFile) (post : List HookFile),
        (∀ x ∈ pre, x.exitCode = 0) → h.exitCode ≠ 0 →
        genDispatchRun (pre ++ h :: post) =
          (h.exitCode, pre.map HookFile.name ++ [h.name],
           [OutEvent.toOut h.stdoutText, OutEvent.toErr h.stderrText])) ∧
      (∀ files : List HookFile, (∀ x ∈ files, x.exitCode = 0) →
        genDispatchRun files = (0, files.map HookFile.name, [])) ∧
      (∀ h : HookFile,
        pyDispatchRun [h] =
          ((if h.exitCode = 0 then 0 else h.exitCode), [h.name],
           OutEvent.info h.name ::
             ((if h.stdoutText ≠ [] then [OutEvent.toOut (stripL h.stdoutText)] else []) ++
              (if h.stderrText ≠ [] then [OutEvent.toErr (stripL h.stderrText)] else [])))) := by
  refine ⟨?_, ?_, ?_⟩
  · intro pre h post hpre hfail
    induction pre with
    | nil => simp [genDispatchRun, hfail]
    | cons x xs ih =>
      have hx : x.exitCode = 0 := hpre x (by simp)
      have hxs : ∀ y ∈ xs, y.exitCode = 0 := fun y hy => hpre y (by simp [hy])
      simp [genDispatchRun, hx, ih hxs]
  · intro files hall
    induction files with
    | nil => simp [genDispatchRun]
    | cons x xs ih =>
      have hx : x.exitCode = 0 := hall x (by simp)
      have hxs : ∀ y ∈ xs, y.exitCode = 0 := fun y hy => hall y (by simp [hy])
      simp [genDispatchRun, hx, ih hxs]
  · intro h
    by_cases hz : h.exitCode = 0
    · simp [pyDispatchRun, hz]
    · simp [pyDispatchRun, hz]

/-- Witness for C6 (amended): one succeeding hook followed by one failing hook. -/
theorem C6_replay_amended_witness :
    genDispatchRun
        [⟨"a.hook".data, 0, "quiet".data, []⟩, ⟨"b.hook".data, 2, "boom".data, "err".data⟩] =
      (2, ["a.hook".data, "b.hook".data],
       [OutEvent.toOut "boom".data, OutEvent.toErr "err".data]) := by
  have := C6_replay_amended.1 [⟨"a.hook".data, 0, "quiet".data, []⟩]
    ⟨"b.hook".data, 2, "boom".data, "err".data⟩ [] (by decide) (by decide)
  simpa using this

/-! ## Claim C7 -/

/-- Claim C7 counterexample: with the default `max_retries = 3` and every attempt
failing transiently, the loop sleeps 1s after attempt 1 and 2s after attempt 2,
and does *not* sleep 4s after attempt 3 (its guard is `attempt < max_retries`),
so the sleep sequence is `[1, 2]`, not `[1, 2, 4]` as the claim states. -/
theorem C7_counterexample :
    (pushPhase (fun _ => transientFailure) 3 false).2 = [1, 2] ∧
      (pushPhase (fun _ => transientFailure) 3 false).2 ≠ [1, 2, 4] := by
  refine ⟨by decide, by decide⟩

/-- Claim C7 (amended): after a transiently-failed attempt `k` the loop sleeps
`2^(k-1)` seconds only when `k < max_retries`.  With the default
`max_retries = 3` the sleeps are 1s after attempt 1 and 2s after attempt 2 and
none after attempt 3; the 4-second sleep after attempt 3 occurs only when
`max_retries ≥ 4` (shown here for `max_retries = 4`). -/
theorem C7_backoff_amended (push : Nat → PushAttempt) (ls : Bool)
    (hp : ∀ i, 1 ≤ i → i ≤ 4 → (push i).rc ≠ 0 ∧ successMarkers (push i) = false ∧
      isTransientAttempt (push i) = true) :
    (pushPhase push 3 ls).2 = [1, 2] ∧ (pushPhase push 4 ls).2 = [1, 2, 4] := by
  have h1 := hp 1 (by norm_num) (by norm_num)
  have h2 := hp 2 (by norm_num) (by norm_num)
  have h3 := hp 3 (by norm_num) (by norm_num)
  have h4 := hp 4 (by norm_num) (by norm_num)
  constructor
  · show (pushRetryGo push 3 ls 3 1).2 = [1, 2]
    rw [pushRetryGo, if_neg h1.1, if_neg (by simp [h1.2.1]),
      if_pos (by simp [h1.2.2])]
    rw [pushRetryGo, if_neg h2.1, if_neg (by simp [h2.2.1]),
      if_pos (by simp [h2.2.2])]
    rw [pushRetryGo, if_neg h3.1, if_neg (by simp [h3.2.1]),
      if_neg (by simp [h3.2.2])]
    cases ls with
    | false => simp [pushRetryGo]
    | true => simp [pushRetryGo]
  · show (pushRetryGo push 4 ls 4 1).2 = [1, 2, 4]
    rw [pushRetryGo, if_neg h1.1, if_neg (by simp [h1.2.1]),
      if_pos (by simp [h1.2.2])]
    rw [pushRetryGo, if_neg h2.1, if_neg (by simp [h2.2.1]),
      if_pos (by simp [h2.2.2])]
    rw [pushRetryGo, if_neg h3.1, if_neg (by simp [h3.2.1]),
      if_pos (by simp [h3.2.2])]
    rw [pushRetryGo, if_neg h4.1, if_neg (by simp [h4.2.1]),
      if_neg (by simp [h4.2.2])]
    cases ls with
    | false => simp [pushRetryGo]
    | true => simp [pushRetryGo]

/-- Witness for C7 (amended): the all-transient-failure trace. -/
theorem C7_backoff_amended_witness :
    (pushPhase (fun _ => transientFailure) 3 false).2 = [1, 2] ∧
      (pushPhase (fun _ => transientFailure) 4 false).2 = [1, 2, 4] :=
  C7_backoff_amended (fun _ => transientFailure) false
    (fun _ _ _ =>
      ⟨show transientFailure.rc ≠ 0 by decide,
       show successMarkers transientFailure = false by decide,
       show isTransientAttempt transientFailure = true by decide⟩)

/-! ## Claim C8 -/

/-- Claim C8: `suggest_type_header` always yields a message satisfying
`has_conventional_type`: an already-conventional message is returned unchanged,
and otherwise the prepended `docs: ` or `feat: ` header satisfies the predicate. -/
theorem C8_type_presence (m : Str) :
    has_conventional_type (suggest_type_header m) = true := by
  by_cases h : has_conventional_type m = true
  · unfold suggest_type_header
    rw [if_pos h]
    exact h
  · unfold suggest_type_header
    rw [if_neg h]
    by_cases hd : (hasSub (toLowerL m) ("doc".data) ||
        hasSub (toLowerL m) ("readme".data)) = true
    · rw [if_pos hd]; rfl
    · rw [if_neg hd]; rfl

/-! ## Claim C9 -/

theorem installHooksLoop_preserves (srcE : Str → Bool) (gen : Str → Str)
    (types : List Str) :
    ∀ (fs : Str → Option Str) (count : Nat) (ht : Str) (c : Str),
      fs ht = some c →
      (installHooksLoop srcE gen false types fs count).1 ht = some c := by
  induction types with
  | nil => intro fs count ht c hc; simpa [installHooksLoop] using hc
  | cons t ts ih =>
    intro fs count ht c hc
    by_cases hsrc : srcE t = true
    · by_cases hex : (fs t).isSome = true
      · rw [installHooksLoop, if_neg (by simp [hsrc]), if_pos (by simp [hex])]
        exact ih fs count ht c hc
      · rw [installHooksLoop, if_neg (by simp [hsrc]), if_neg (by simp [hex])]
        refine ih _ (count + 1) ht c ?_
        by_cases het : ht = t
        · exfalso
          rw [het] at hc
          simp [hc] at hex
        · simpa [het] using hc
    · rw [installHooksLoop, if_pos (by simp [hsrc])]
      exact ih fs count ht c hc

/-- Claim C9: without `force`, any hook file already present in the target hooks
directory is left untouched by both the local and the global installer. -/
theorem C9_no_force_untouched (srcE : Str → Bool) (gen : Str → Str)
    (fs : Str → Option Str) (ht c : Str) (hc : fs ht = some c) :
    (install_local_hooks srcE gen false fs).1 ht = some c ∧
      (install_global_hooks srcE gen false fs).1 ht = some c :=
  ⟨installHooksLoop_preserves srcE gen hookTypes fs 0 ht c hc,
   installHooksLoop_preserves srcE gen hookTypes fs 0 ht c hc⟩

/-- Witness for C9: a pre-existing `pre-commit` hook with content `old` survives
an installation without `force`. -/
theorem C9_no_force_untouched_witness :
    ((fun x => if x = "pre-commit".data then some "old".data else none)
        ("pre-commit".data) = some "old".data) ∧
      (install_local_hooks (fun _ => true) (fun _ => "new".data) false
          (fun x => if x = "pre-commit".data then some "old".data else none)).1
          ("pre-commit".data) = some "old".data :=
  ⟨by decide,
   (C9_no_force_untouched (fun _ => true) (fun _ => "new".data)
      (fun x => if x = "pre-commit".data then some "old".data else none)
      ("pre-commit".data) "old".data (by decide)).1⟩

/-! ## Claim C10 -/

/-- Claim C10 counterexample: when the commitlint executable *is* resolvable but
its invocation raises, the code falls through to the Python-side rules — so the
claim that those rules run only when no commitlint executable is found is false. -/
theorem C10_counterexample :
    (⟨true, true⟩ : LintEnv).hasCommitlint = true ∧
      validate_commit_message ⟨true, true⟩ "hello".data =
        (false,
         ["Commitlint execution error".data,
          "Missing conventional type (feat, fix, docs, style, refactor, test, chore, ci)".data,
          "Missing Jira ticket in header/body".data]) := by
  refine ⟨by decide, by decide⟩

/-- Claim C10 (amended): when commitlint resolves and does not raise,
`validate_commit_message` returns `(True, [])` for every message; the
Python-side rules run exactly when commitlint is absent or its invocation
raises (prefixed with the execution error in the latter case). -/
theorem C10_validate_amended :
    (∀ (env : LintEnv) (m : Str), env.hasCommitlint = true → env.execRaises = false →
        validate_commit_message env m = (true, [])) ∧
      (∀ (env : LintEnv) (m : Str), env.hasCommitlint = false ∨ env.execRaises = true →
        (validate_commit_message env m).2 =
          (if env.hasCommitlint then ["Commitlint execution error".data] else []) ++
            pythonSideErrors m) := by
  constructor
  · intro env m h1 h2
    simp [validate_commit_message, h1, h2]
  · intro env m h
    rcases h with h | h
    · simp [validate_commit_message, h]
    · cases hc : env.hasCommitlint with
      | false => simp [validate_commit_message, hc]
      | true => simp [validate_commit_message, hc, h]

/-- Witness for C10 (amended): a resolvable, non-raising commitlint accepts a
message with neither a conventional type nor a ticket. -/
theorem C10_validate_amended_witness :
    (⟨true, false⟩ : LintEnv).hasCommitlint = true ∧
      validate_commit_message ⟨true, false⟩ "no type here".data = (true, []) :=
  ⟨by decide,
   C10_validate_amended.1 ⟨true, false⟩ "no type here".data (by decide) (by decide)⟩

end Githooks
